import Mathlib

/-!
Verification of the nightshade-book entity/transform scene-graph subsystem
and the orbit camera controller.

The repository ships only the demo caller (`demos/hello/src/main.rs`); the
engine components it exercises (EntityRegistry, TransformStore,
TransformPropagator, OrbitCameraController) live in the `nightshade` crate,
which is not part of this repository's sources.  Those components are
therefore modelled from the specification text, faithfully to its words, and
scalar arithmetic is carried out over `ℚ` (the floating-point types of the
original are modelled as exact rationals; trigonometric functions, which are
not computable over `ℚ`, are passed in as an environment of function
parameters).
-/

namespace Nightshade

/-- 3-component vector over `ℚ` (models `Vec3`). -/
structure Vec3 where
  x : ℚ
  y : ℚ
  z : ℚ
deriving DecidableEq

/-- Quaternion over `ℚ` (models `Quaternion`), stored as `w + xi + yj + zk`. -/
structure Quat where
  w : ℚ
  x : ℚ
  y : ℚ
  z : ℚ
deriving DecidableEq

/-- Componentwise vector addition. -/
def Vec3.add (a b : Vec3) : Vec3 := ⟨a.x + b.x, a.y + b.y, a.z + b.z⟩

/-- Componentwise vector subtraction. -/
def Vec3.sub (a b : Vec3) : Vec3 := ⟨a.x - b.x, a.y - b.y, a.z - b.z⟩

/-- Scalar multiple of a vector. -/
def Vec3.smul (c : ℚ) (v : Vec3) : Vec3 := ⟨c * v.x, c * v.y, c * v.z⟩

/-- Hamilton product of quaternions. -/
def Quat.mul (a b : Quat) : Quat :=
  ⟨a.w * b.w - a.x * b.x - a.y * b.y - a.z * b.z,
   a.w * b.x + a.x * b.w + a.y * b.z - a.z * b.y,
   a.w * b.y - a.x * b.z + a.y * b.w + a.z * b.x,
   a.w * b.z + a.x * b.y - a.y * b.x + a.z * b.w⟩

/-- Quaternion conjugate. -/
def Quat.conj (q : Quat) : Quat := ⟨q.w, -q.x, -q.y, -q.z⟩

/-- Sandwich action of a quaternion on a vector, `q · (0,v) · q*`.
For a unit quaternion this is the rotation it represents; for a nonzero
multiple it is the same rotation scaled by the squared norm (direction
preserved). -/
def Quat.rotateVec (q : Quat) (v : Vec3) : Vec3 :=
  let r := Quat.mul (Quat.mul q ⟨0, v.x, v.y, v.z⟩) (Quat.conj q)
  ⟨r.x, r.y, r.z⟩

/-- The identity quaternion. -/
def Quat.id : Quat := ⟨1, 0, 0, 0⟩

/-- 4×4 matrix over `ℚ` in row-major field order (models `Matrix4`). -/
structure Mat4 where
  m00 : ℚ
  m01 : ℚ
  m02 : ℚ
  m03 : ℚ
  m10 : ℚ
  m11 : ℚ
  m12 : ℚ
  m13 : ℚ
  m20 : ℚ
  m21 : ℚ
  m22 : ℚ
  m23 : ℚ
  m30 : ℚ
  m31 : ℚ
  m32 : ℚ
  m33 : ℚ
deriving DecidableEq

/-- The identity matrix. -/
def Mat4.id : Mat4 :=
  ⟨1, 0, 0, 0,
   0, 1, 0, 0,
   0, 0, 1, 0,
   0, 0, 0, 1⟩

/-- Matrix product (row times column). -/
def Mat4.mul (a b : Mat4) : Mat4 :=
  ⟨a.m00 * b.m00 + a.m01 * b.m10 + a.m02 * b.m20 + a.m03 * b.m30,
   a.m00 * b.m01 + a.m01 * b.m11 + a.m02 * b.m21 + a.m03 * b.m31,
   a.m00 * b.m02 + a.m01 * b.m12 + a.m02 * b.m22 + a.m03 * b.m32,
   a.m00 * b.m03 + a.m01 * b.m13 + a.m02 * b.m23 + a.m03 * b.m33,
   a.m10 * b.m00 + a.m11 * b.m10 + a.m12 * b.m20 + a.m13 * b.m30,
   a.m10 * b.m01 + a.m11 * b.m11 + a.m12 * b.m21 + a.m13 * b.m31,
   a.m10 * b.m02 + a.m11 * b.m12 + a.m12 * b.m22 + a.m13 * b.m32,
   a.m10 * b.m03 + a.m11 * b.m13 + a.m12 * b.m23 + a.m13 * b.m33,
   a.m20 * b.m00 + a.m21 * b.m10 + a.m22 * b.m20 + a.m23 * b.m30,
   a.m20 * b.m01 + a.m21 * b.m11 + a.m22 * b.m21 + a.m23 * b.m31,
   a.m20 * b.m02 + a.m21 * b.m12 + a.m22 * b.m22 + a.m23 * b.m32,
   a.m20 * b.m03 + a.m21 * b.m13 + a.m22 * b.m23 + a.m23 * b.m33,
   a.m30 * b.m00 + a.m31 * b.m10 + a.m32 * b.m20 + a.m33 * b.m30,
   a.m30 * b.m01 + a.m31 * b.m11 + a.m32 * b.m21 + a.m33 * b.m31,
   a.m30 * b.m02 + a.m31 * b.m12 + a.m32 * b.m22 + a.m33 * b.m32,
   a.m30 * b.m03 + a.m31 * b.m13 + a.m32 * b.m23 + a.m33 * b.m33⟩

/-- Modelled from the spec (§3 `LocalTransform`): translation, rotation and
scale, relative to a parent (or to world space for a root). -/
structure LocalTransform where
  translation : Vec3
  rotation : Quat
  scale : Vec3
deriving DecidableEq

/-- The local matrix of a transform: `compose(translation, rotation, scale)`
(spec §4.3 step 2), i.e. the usual translation × rotation × scale composite,
with the rotation block obtained from the quaternion. -/
def localMatrix (lt : LocalTransform) : Mat4 :=
  let t := lt.translation
  let q := lt.rotation
  let s := lt.scale
  let r00 := 1 - 2 * (q.y * q.y + q.z * q.z)
  let r01 := 2 * (q.x * q.y - q.w * q.z)
  let r02 := 2 * (q.x * q.z + q.w * q.y)
  let r10 := 2 * (q.x * q.y + q.w * q.z)
  let r11 := 1 - 2 * (q.x * q.x + q.z * q.z)
  let r12 := 2 * (q.y * q.z - q.w * q.x)
  let r20 := 2 * (q.x * q.z - q.w * q.y)
  let r21 := 2 * (q.y * q.z + q.w * q.x)
  let r22 := 1 - 2 * (q.x * q.x + q.y * q.y)
  ⟨r00 * s.x, r01 * s.y, r02 * s.z, t.x,
   r10 * s.x, r11 * s.y, r12 * s.z, t.y,
   r20 * s.x, r21 * s.y, r22 * s.z, t.z,
   0, 0, 0, 1⟩

/-- Modelled from the spec (§3 `Entity`): an opaque handle composed of
`(index, generation)`. -/
structure Entity where
  index : Nat
  generation : Nat
deriving DecidableEq

/-- One storage slot of the registry: the slot's current generation and
whether its current occupant is alive. -/
structure Slot where
  generation : Nat
  alive : Bool
deriving DecidableEq

/-- Modelled from the spec (§4.1 `EntityRegistry`): issues and invalidates
stable entity identifiers.  The free list of the spec is represented by the
set of dead slots; `spawn` allocates the lowest dead index, which is exactly
"the lowest free index". -/
structure EntityRegistry where
  slots : List Slot
deriving DecidableEq

/-- The empty registry. -/
def EntityRegistry.empty : EntityRegistry := ⟨[]⟩

/-- Index of the first dead (free) slot, if any. -/
def firstFree : List Slot → Option Nat
  | [] => none
  | s :: rest => if s.alive then (firstFree rest).map (· + 1) else some 0

/-- Generation of slot `i` (0 when out of range, which never matters: every
access is guarded by a range check). -/
def EntityRegistry.slotGen (r : EntityRegistry) (i : Nat) : Nat :=
  ((r.slots[i]?).map Slot.generation).getD 0

/-- Liveness of slot `i`. -/
def EntityRegistry.slotAlive (r : EntityRegistry) (i : Nat) : Bool :=
  ((r.slots[i]?).map Slot.alive).getD false

/-- Modelled from the spec (§4.1 `spawn`): allocates the lowest free index or
grows storage; returns a handle with the slot's current generation. -/
def EntityRegistry.spawn (r : EntityRegistry) : EntityRegistry × Entity :=
  match firstFree r.slots with
  | some i =>
      let g := r.slotGen i
      (⟨r.slots.set i ⟨g, true⟩⟩, ⟨i, g⟩)
  | none =>
      (⟨r.slots ++ [⟨0, true⟩]⟩, ⟨r.slots.length, 0⟩)

/-- Modelled from the spec (§4.1 `is_alive`): generation-matching check. -/
def EntityRegistry.isAlive (r : EntityRegistry) (e : Entity) : Bool :=
  match r.slots[e.index]? with
  | none => false
  | some s => s.alive && s.generation == e.generation

/-- Modelled from the spec (§4.1 `despawn`): a no-op on a stale handle
(the reported invalid-handle outcome is the unchanged registry); on success
increments the slot's generation and frees the slot. -/
def EntityRegistry.despawn (r : EntityRegistry) (e : Entity) : EntityRegistry :=
  if r.isAlive e then ⟨r.slots.set e.index ⟨e.generation + 1, false⟩⟩ else r

/-- One operation of a registry run. -/
inductive RegOp where
  | spawn : RegOp
  | despawn : Entity → RegOp

/-- One step of a registry run, accumulating every handle `spawn` issued. -/
def regStep : EntityRegistry × List Entity → RegOp → EntityRegistry × List Entity
  | (r, issued), RegOp.spawn => ((r.spawn).1, issued ++ [(r.spawn).2])
  | (r, issued), RegOp.despawn e => (r.despawn e, issued)

/-- Run a finite sequence of spawn/despawn operations from the empty
registry, returning the final registry and the issued handles in order. -/
def runReg (ops : List RegOp) : EntityRegistry × List Entity :=
  ops.foldl regStep (EntityRegistry.empty, [])

/-! ### Registry invariants -/

/-- Per-handle invariant: an issued handle's index is in range, its
generation never exceeds its slot's current generation, and it can match the
slot's generation only while the slot is alive. -/
def HandleInv (r : EntityRegistry) (e : Entity) : Prop :=
  e.index < r.slots.length ∧
  e.generation ≤ r.slotGen e.index ∧
  (e.generation = r.slotGen e.index → r.slotAlive e.index = true)

/-- Run invariant: every issued handle satisfies `HandleInv`, and handles
issued for the same index carry strictly increasing generations in issue
order. -/
def RegInv (p : EntityRegistry × List Entity) : Prop :=
  (∀ e ∈ p.2, HandleInv p.1 e) ∧
  p.2.Pairwise (fun a b => a.index = b.index → a.generation < b.generation)

theorem firstFree_lt {l : List Slot} {i : Nat} (h : firstFree l = some i) :
    i < l.length := by
  induction l generalizing i with
  | nil => simp [firstFree] at h
  | cons s rest ih =>
    by_cases hs : s.alive
    · simp only [firstFree, hs, if_true, Option.map_eq_some'] at h
      obtain ⟨j, hj, rfl⟩ := h
      have := ih hj
      simp only [List.length_cons]
      omega
    · rw [firstFree, if_neg hs] at h
      have hi := Option.some.inj h
      subst hi
      simp

theorem firstFree_dead {l : List Slot} {i : Nat} (h : firstFree l = some i) :
    ∃ s, l[i]? = some s ∧ s.alive = false := by
  induction l generalizing i with
  | nil => simp [firstFree] at h
  | cons s rest ih =>
    by_cases hs : s.alive
    · simp only [firstFree, hs, if_true, Option.map_eq_some'] at h
      obtain ⟨j, hj, rfl⟩ := h
      simpa using ih hj
    · rw [firstFree, if_neg hs] at h
      have hi := Option.some.inj h
      subst hi
      exact ⟨s, by simp, by simpa using hs⟩

theorem slotGen_set {r : EntityRegistry} {i : Nat} (hi : i < r.slots.length)
    (sl : Slot) (j : Nat) :
    EntityRegistry.slotGen ⟨r.slots.set i sl⟩ j =
      if i = j then sl.generation else r.slotGen j := by
  by_cases hij : i = j
  · subst hij
    simp [EntityRegistry.slotGen, List.getElem?_set, hi]
  · simp [EntityRegistry.slotGen, List.getElem?_set, hij]

theorem slotAlive_set {r : EntityRegistry} {i : Nat} (hi : i < r.slots.length)
    (sl : Slot) (j : Nat) :
    EntityRegistry.slotAlive ⟨r.slots.set i sl⟩ j =
      if i = j then sl.alive else r.slotAlive j := by
  by_cases hij : i = j
  · subst hij
    simp [EntityRegistry.slotAlive, List.getElem?_set, hi]
  · simp [EntityRegistry.slotAlive, List.getElem?_set, hij]

theorem isAlive_iff {r : EntityRegistry} {e : Entity} :
    r.isAlive e = true ↔
      ∃ s, r.slots[e.index]? = some s ∧ s.alive = true ∧
        s.generation = e.generation := by
  unfold EntityRegistry.isAlive
  cases h : r.slots[e.index]? with
  | none => simp
  | some s => simp [Bool.and_eq_true, beq_iff_eq]

theorem isAlive_eq_false_of_gen_lt {r : EntityRegistry} {e : Entity}
    (h : e.generation < r.slotGen e.index) : r.isAlive e = false := by
  unfold EntityRegistry.isAlive
  cases hs : r.slots[e.index]? with
  | none => rfl
  | some s =>
    have hgen : r.slotGen e.index = s.generation := by
      simp [EntityRegistry.slotGen, hs]
    rw [hgen] at h
    have hbeq : (s.generation == e.generation) = false := by
      simp only [beq_eq_false_iff_ne, ne_eq]
      omega
    simp [hbeq]

theorem regStep_inv {p : EntityRegistry × List Entity} (hp : RegInv p)
    (op : RegOp) : RegInv (regStep p op) := by
  obtain ⟨r, issued⟩ := p
  obtain ⟨hinv, hpw⟩ := hp
  dsimp only at hinv hpw
  cases op with
  | spawn =>
    show RegInv ((r.spawn).1, issued ++ [(r.spawn).2])
    cases hf : firstFree r.slots with
    | some i =>
      have hi : i < r.slots.length := firstFree_lt hf
      obtain ⟨sdead, hsdead, hdead⟩ := firstFree_dead hf
      have hdeadAlive : r.slotAlive i = false := by
        simp [EntityRegistry.slotAlive, hsdead, hdead]
      simp only [EntityRegistry.spawn, hf]
      constructor
      · intro e he
        rcases List.mem_append.mp he with hold | hnew
        · obtain ⟨h1, h2, h3⟩ := hinv e hold
          refine ⟨by simpa using h1, ?_, ?_⟩
          · rw [slotGen_set hi]
            by_cases hij : i = e.index
            · subst hij
              simpa using h2
            · simpa [hij] using h2
          · rw [slotGen_set hi, slotAlive_set hi]
            by_cases hij : i = e.index
            · subst hij
              intro _
              simp
            · simp only [hij, if_false]
              exact h3
        · have : e = ⟨i, r.slotGen i⟩ := by simpa using hnew
          subst this
          refine ⟨by simpa using hi, ?_, ?_⟩
          · rw [slotGen_set hi]
            simp
          · rw [slotAlive_set hi]
            intro _
            simp
      · rw [List.pairwise_append]
        refine ⟨hpw, by simp, ?_⟩
        intro a ha b hb
        have hb' : b = ⟨i, r.slotGen i⟩ := by simpa using hb
        subst hb'
        intro hidx
        obtain ⟨h1, h2, h3⟩ := hinv a ha
        rw [hidx] at h2 h3
        rcases Nat.lt_or_ge a.generation (r.slotGen i) with hlt | hge
        · exact hlt
        · have heq : a.generation = r.slotGen i := Nat.le_antisymm h2 hge
          have := h3 heq
          rw [hdeadAlive] at this
          cases this
    | none =>
      simp only [EntityRegistry.spawn, hf]
      constructor
      · intro e he
        rcases List.mem_append.mp he with hold | hnew
        · obtain ⟨h1, h2, h3⟩ := hinv e hold
          have hgen : EntityRegistry.slotGen ⟨r.slots ++ [⟨0, true⟩]⟩ e.index =
              r.slotGen e.index := by
            simp [EntityRegistry.slotGen, List.getElem?_append_left h1]
          have halive : EntityRegistry.slotAlive ⟨r.slots ++ [⟨0, true⟩]⟩ e.index =
              r.slotAlive e.index := by
            simp [EntityRegistry.slotAlive, List.getElem?_append_left h1]
          refine ⟨by simp; omega, ?_, ?_⟩
          · rw [hgen]; exact h2
          · rw [hgen, halive]; exact h3
        · have : e = ⟨r.slots.length, 0⟩ := by simpa using hnew
          subst this
          refine ⟨by simp, ?_, ?_⟩
          · simp [EntityRegistry.slotGen, List.getElem?_concat_length]
          · intro _
            simp [EntityRegistry.slotAlive, List.getElem?_concat_length]
      · rw [List.pairwise_append]
        refine ⟨hpw, by simp, ?_⟩
        intro a ha b hb
        have hb' : b = ⟨r.slots.length, 0⟩ := by simpa using hb
        subst hb'
        intro hidx
        obtain ⟨h1, _, _⟩ := hinv a ha
        simp only at hidx
        omega
  | despawn e =>
    show RegInv (r.despawn e, issued)
    unfold EntityRegistry.despawn
    by_cases ha : r.isAlive e = true
    · obtain ⟨s, hs, hsalive, hsgen⟩ := isAlive_iff.mp ha
      have hi : e.index < r.slots.length := by
        obtain ⟨h, _⟩ := List.getElem?_eq_some.mp hs
        exact h
      have hgeni : r.slotGen e.index = e.generation := by
        simp [EntityRegistry.slotGen, hs, hsgen]
      simp only [ha, if_true]
      constructor
      · intro h hmem
        obtain ⟨h1, h2, h3⟩ := hinv h hmem
        refine ⟨by simpa using h1, ?_, ?_⟩
        · rw [slotGen_set hi]
          by_cases hij : e.index = h.index
          · rw [if_pos hij]
            rw [← hij] at h2
            rw [hgeni] at h2
            simp only
            omega
          · rw [if_neg hij]
            exact h2
        · rw [slotGen_set hi, slotAlive_set hi]
          by_cases hij : e.index = h.index
          · rw [if_pos hij, if_pos hij]
            intro hcontra
            rw [← hij] at h2
            rw [hgeni] at h2
            simp only at hcontra
            omega
          · rw [if_neg hij, if_neg hij]
            exact h3
      · exact hpw
    · simp only [ha, if_false]
      exact ⟨hinv, hpw⟩

theorem runReg_inv (ops : List RegOp) : RegInv (runReg ops) := by
  have step : ∀ (l : List RegOp) (p : EntityRegistry × List Entity),
      RegInv p → RegInv (l.foldl regStep p) := by
    intro l
    induction l with
    | nil => intro p hp; simpa using hp
    | cons a t ih =>
      intro p hp
      simpa [List.foldl] using ih _ (regStep_inv hp a)
  apply step
  constructor
  · intro e he
    simp at he
  · simp

/-- C3: for every finite sequence of spawn/despawn operations, (i) no two
simultaneously-live handles share an index, (ii) when an index is reused the
later handle's generation is strictly greater than any earlier occupant's,
and (iii) a handle issued before a despawn/respawn cycle on its index is no
longer alive at the end of the run. -/
theorem entity_identity_uniqueness (ops : List RegOp) :
    (∀ e₁ e₂ : Entity, (runReg ops).1.isAlive e₁ = true →
       (runReg ops).1.isAlive e₂ = true → e₁.index = e₂.index → e₁ = e₂) ∧
    (∀ i j : Fin (runReg ops).2.length, i < j →
       ((runReg ops).2.get i).index = ((runReg ops).2.get j).index →
       ((runReg ops).2.get i).generation < ((runReg ops).2.get j).generation) ∧
    (∀ i j : Fin (runReg ops).2.length, i < j →
       ((runReg ops).2.get i).index = ((runReg ops).2.get j).index →
       (runReg ops).1.isAlive ((runReg ops).2.get i) = false) := by
  obtain ⟨hinv, hpw⟩ := runReg_inv ops
  have hpair := List.pairwise_iff_get.mp hpw
  refine ⟨?_, ?_, ?_⟩
  · intro e₁ e₂ h1 h2 hidx
    obtain ⟨s₁, hs₁, _, hg₁⟩ := isAlive_iff.mp h1
    obtain ⟨s₂, hs₂, _, hg₂⟩ := isAlive_iff.mp h2
    rw [hidx] at hs₁
    rw [hs₁] at hs₂
    cases hs₂
    cases e₁
    cases e₂
    simp only at hidx hg₁ hg₂
    simp [hidx, ← hg₁, ← hg₂]
  · intro i j hij hidx
    exact hpair i j hij hidx
  · intro i j hij hidx
    have hlt := hpair i j hij hidx
    have hjmem : (runReg ops).2.get j ∈ (runReg ops).2 := List.get_mem _ _ _
    obtain ⟨_, h2, _⟩ := hinv _ hjmem
    apply isAlive_eq_false_of_gen_lt
    rw [hidx]
    omega

/-! ### TransformStore -/

/-- Per-entity record of the store: the authoritative local transform, the
optional parent link, and the cached world matrix. -/
structure TransformEntry where
  localTransform : LocalTransform
  parent : Option Entity
  world : Mat4
deriving DecidableEq

/-- Modelled from the spec (§3, §4.2 `TransformStore`): per-entity local
transform data, parent links, cached world matrices, and the dirty set. -/
structure TransformStore where
  entries : List (Entity × TransformEntry)
  dirty : List Entity
deriving DecidableEq

/-- First-match association-list lookup. -/
def lookupEntry : List (Entity × TransformEntry) → Entity → Option TransformEntry
  | [], _ => none
  | (k, v) :: rest, e => if k = e then some v else lookupEntry rest e

/-- Look up an entity's record. -/
def TransformStore.find (s : TransformStore) (e : Entity) : Option TransformEntry :=
  lookupEntry s.entries e

/-- Modelled from the spec (§4.2 `get`): none for unknown entities. -/
def TransformStore.get (s : TransformStore) (e : Entity) : Option LocalTransform :=
  (s.find e).map TransformEntry.localTransform

/-- Modelled from the spec (§4.2 `get_mut`): mutation of the local transform
through the returned reference, as a functional update.  It deliberately does
NOT mark the entity dirty — marking is a separate explicit step. -/
def TransformStore.modifyLocal (s : TransformStore) (e : Entity)
    (f : LocalTransform → LocalTransform) : TransformStore :=
  { s with
    entries := s.entries.map fun p =>
      (p.1, if p.1 = e then { p.2 with localTransform := f p.2.localTransform }
            else p.2) }

/-- Overwrite an entity's local transform (a whole-record `get_mut` write). -/
def TransformStore.setLocal (s : TransformStore) (e : Entity)
    (lt : LocalTransform) : TransformStore :=
  s.modifyLocal e fun _ => lt

/-- Modelled from the spec (§4.2 `mark_dirty`): idempotent; a no-op if the
entity is already dirty or unknown. -/
def TransformStore.markDirty (s : TransformStore) (e : Entity) : TransformStore :=
  if (s.find e).isSome ∧ e ∉ s.dirty then { s with dirty := e :: s.dirty } else s

/-- Modelled from the spec (§4.2 `world_matrix`): the last-propagated world
matrix; stale between a dirty mark and the next propagation by design. -/
def TransformStore.worldMatrix (s : TransformStore) (e : Entity) : Option Mat4 :=
  (s.find e).map TransformEntry.world

/-- Fuel bound used by every ancestor walk: one more than the number of
records, which exceeds the length of any acyclic parent chain. -/
def TransformStore.fuel (s : TransformStore) : Nat := s.entries.length + 1

/-- Whether some member of the entity's ancestor-or-self chain is dirty:
this is exactly membership in the propagation closure "DirtySet ∪ all
descendants of any dirty entity" (spec §4.3 step 1), checked upward. -/
def TransformStore.dirtyUpward (s : TransformStore) : Nat → Entity → Bool
  | 0, _ => false
  | n + 1, e =>
    decide (e ∈ s.dirty) ||
      (match s.find e with
       | none => false
       | some ent =>
         match ent.parent with
         | none => false
         | some p => s.dirtyUpward n p)

/-- Whether the parent chain starting at the entity reaches a root (an
entity with no parent link, or no record) within the given fuel. -/
def TransformStore.rooted (s : TransformStore) : Nat → Entity → Bool
  | 0, _ => false
  | n + 1, e =>
    match s.find e with
    | none => true
    | some ent =>
      match ent.parent with
      | none => true
      | some p => s.rooted n p

/-- Store well-formedness: the parent graph is acyclic, expressed as every
recorded entity's parent chain reaching a root within `entries.length`
steps (spec §3 `ParentLink` invariant). -/
def TransformStore.wf (s : TransformStore) : Bool :=
  s.entries.all fun p => s.rooted s.entries.length p.1

/-- The world matrix an entity has after propagation (spec §4.3 step 2):
an entity outside the recompute closure keeps its cached matrix; a root in
the closure takes its local matrix; a child in the closure composes its
parent's propagated matrix with its local matrix. -/
def TransformStore.computeWorld (s : TransformStore) (cfuel : Nat) :
    Nat → Entity → Mat4
  | 0, e =>
    match s.find e with
    | none => Mat4.id
    | some ent => ent.world
  | n + 1, e =>
    match s.find e with
    | none => Mat4.id
    | some ent =>
      if s.dirtyUpward cfuel e then
        match ent.parent with
        | none => localMatrix ent.localTransform
        | some p => Mat4.mul (s.computeWorld cfuel n p) (localMatrix ent.localTransform)
      else ent.world

/-- Modelled from the spec (§4.3 `propagate`): recompute the world matrices
of every entity in the closure of the dirty set, parent before child, and
clear the dirty set atomically. -/
def TransformStore.propagate (s : TransformStore) : TransformStore :=
  { entries := s.entries.map fun p =>
      (p.1, { p.2 with world := s.computeWorld s.fuel s.fuel p.1 }),
    dirty := [] }

/-- Modelled from the spec (§4.3 failure semantics): dirty entities missing
transform data are a reported programming-error condition; this returns the
offenders that `propagate` reports. -/
def TransformStore.propagateReport (s : TransformStore) : List Entity :=
  s.dirty.filter fun e => (s.find e).isNone

/-- Replace an entity's parent link (the raw field write behind
`set_parent`, applied only after validation). -/
def TransformStore.setParentLink (s : TransformStore) (e : Entity)
    (np : Option Entity) : TransformStore :=
  { s with
    entries := s.entries.map fun p =>
      (p.1, if p.1 = e then { p.2 with parent := np } else p.2) }

/-- The ancestor chain walked during cycle detection: the entity itself
followed by its ancestors, cut off at the given fuel. -/
def TransformStore.ancestorChain (s : TransformStore) : Nat → Entity → List Entity
  | 0, _ => []
  | n + 1, e =>
    e ::
      (match s.find e with
       | none => []
       | some ent =>
         match ent.parent with
         | none => []
         | some p => s.ancestorChain n p)

/-- Modelled from the spec (§4.2 `set_parent`): rejects an unknown entity or
parent and any assignment that would create a cycle (walk the ancestors of
the new parent; if the entity itself appears, reject, before any state
mutation); on success rewrites the parent link and implicitly marks the
entity dirty. -/
def TransformStore.setParent (s : TransformStore) (e : Entity)
    (np : Option Entity) : Option TransformStore :=
  match s.find e with
  | none => none
  | some _ =>
    match np with
    | none => some ((s.setParentLink e none).markDirty e)
    | some p =>
      if (s.find p).isNone then none
      else if e ∈ s.ancestorChain s.fuel p then none
      else some ((s.setParentLink e (some p)).markDirty e)

/-- Insert or replace an association-list record. -/
def insertEntry : List (Entity × TransformEntry) → Entity → TransformEntry →
    List (Entity × TransformEntry)
  | [], e, v => [(e, v)]
  | (k, w) :: rest, e, v =>
    if k = e then (e, v) :: rest else (k, w) :: insertEntry rest e v

/-- Modelled from the spec (§4.2 `insert`): attaches transform data; fails if
the entity is not alive, or if the parent is not alive or would create a
cycle (walk the ancestors of the parent; if the entity itself appears,
reject).  The cached world matrix starts at the identity and is stale until
the next propagation. -/
def TransformStore.insert (s : TransformStore) (reg : EntityRegistry)
    (e : Entity) (lt : LocalTransform) (parent : Option Entity) :
    Option TransformStore :=
  if reg.isAlive e = false then none
  else
    match parent with
    | none =>
      some { s with entries := insertEntry s.entries e ⟨lt, none, Mat4.id⟩ }
    | some p =>
      if reg.isAlive p = false then none
      else if e ∈ s.ancestorChain s.fuel p then none
      else some { s with entries := insertEntry s.entries e ⟨lt, some p, Mat4.id⟩ }

/-! ### Store lemmas -/

theorem lookupEntry_map (l : List (Entity × TransformEntry))
    (f : Entity → TransformEntry → TransformEntry) (e : Entity) :
    lookupEntry (l.map fun p => (p.1, f p.1 p.2)) e = (lookupEntry l e).map (f e) := by
  induction l with
  | nil => rfl
  | cons p rest ih =>
    by_cases h : p.1 = e
    · simp [lookupEntry, h]
    · simp [lookupEntry, h, ih]

theorem lookupEntry_some_mem {l : List (Entity × TransformEntry)} {e : Entity}
    {v : TransformEntry} (h : lookupEntry l e = some v) : (e, v) ∈ l := by
  induction l with
  | nil => simp [lookupEntry] at h
  | cons p rest ih =>
    by_cases hp : p.1 = e
    · rw [lookupEntry, if_pos hp] at h
      have hv := Option.some.inj h
      apply List.mem_cons.mpr
      left
      rw [← hp, ← hv]
    · rw [lookupEntry, if_neg hp] at h
      right
      exact ih h

theorem lookupEntry_isSome_of_mem {l : List (Entity × TransformEntry)}
    {e : Entity} {v : TransformEntry} (h : (e, v) ∈ l) :
    (lookupEntry l e).isSome = true := by
  induction l with
  | nil => simp at h
  | cons p rest ih =>
    by_cases hp : p.1 = e
    · simp [lookupEntry, hp]
    · rw [lookupEntry, if_neg hp]
      rcases List.mem_cons.mp h with heq | hmem
      · rw [← heq] at hp
        simp at hp
      · exact ih hmem

theorem find_modifyLocal (s : TransformStore) (e : Entity)
    (f : LocalTransform → LocalTransform) (x : Entity) :
    (s.modifyLocal e f).find x =
      (s.find x).map fun v =>
        if x = e then { v with localTransform := f v.localTransform } else v := by
  unfold TransformStore.modifyLocal TransformStore.find
  exact lookupEntry_map s.entries
    (fun k v => if k = e then { v with localTransform := f v.localTransform } else v) x

theorem find_setParentLink (s : TransformStore) (e : Entity)
    (np : Option Entity) (x : Entity) :
    (s.setParentLink e np).find x =
      (s.find x).map fun v => if x = e then { v with parent := np } else v := by
  unfold TransformStore.setParentLink TransformStore.find
  exact lookupEntry_map s.entries
    (fun k v => if k = e then { v with parent := np } else v) x

theorem find_modifyLocal_ne (s : TransformStore) (e : Entity)
    (f : LocalTransform → LocalTransform) {x : Entity} (hx : x ≠ e) :
    (s.modifyLocal e f).find x = s.find x := by
  rw [find_modifyLocal]
  cases s.find x <;> simp [hx]

theorem find_setParentLink_ne (s : TransformStore) (e : Entity)
    (np : Option Entity) {x : Entity} (hx : x ≠ e) :
    (s.setParentLink e np).find x = s.find x := by
  rw [find_setParentLink]
  cases s.find x <;> simp [hx]

theorem markDirty_entries (s : TransformStore) (e : Entity) :
    (s.markDirty e).entries = s.entries := by
  unfold TransformStore.markDirty
  split <;> rfl

theorem find_markDirty (s : TransformStore) (e : Entity) (x : Entity) :
    (s.markDirty e).find x = s.find x := by
  unfold TransformStore.find
  rw [markDirty_entries]

theorem markDirty_dirty_of_fresh {s : TransformStore} {e : Entity}
    (hs : (s.find e).isSome = true) (hd : e ∉ s.dirty) :
    (s.markDirty e).dirty = e :: s.dirty := by
  unfold TransformStore.markDirty
  rw [if_pos ⟨hs, hd⟩]

theorem modifyLocal_dirty (s : TransformStore) (e : Entity)
    (f : LocalTransform → LocalTransform) : (s.modifyLocal e f).dirty = s.dirty :=
  rfl

theorem modifyLocal_length (s : TransformStore) (e : Entity)
    (f : LocalTransform → LocalTransform) :
    (s.modifyLocal e f).entries.length = s.entries.length :=
  List.length_map _ _

theorem setParentLink_length (s : TransformStore) (e : Entity)
    (np : Option Entity) :
    (s.setParentLink e np).entries.length = s.entries.length :=
  List.length_map _ _

theorem wf_rooted {s : TransformStore} (hwf : s.wf = true) {e : Entity}
    {v : TransformEntry} (h : s.find e = some v) :
    s.rooted s.entries.length e = true := by
  have hmem := lookupEntry_some_mem h
  exact List.all_eq_true.mp hwf _ hmem

theorem dirtyUpward_nil {s : TransformStore} (hd : s.dirty = []) :
    ∀ (n : Nat) (e : Entity), s.dirtyUpward n e = false := by
  intro n
  induction n with
  | zero => intro e; rfl
  | succ n ih =>
    intro e
    unfold TransformStore.dirtyUpward
    rw [hd]
    cases hf : s.find e with
    | none => simp
    | some ent =>
      cases hp : ent.parent with
      | none => simp [hp]
      | some p => simp [hp, ih]

theorem computeWorld_cached {s : TransformStore} {e : Entity} {ent : TransformEntry}
    (hnd : ∀ n, s.dirtyUpward n e = false) (hf : s.find e = some ent) :
    ∀ (c n : Nat), s.computeWorld c n e = ent.world := by
  intro c n
  cases n with
  | zero => simp [TransformStore.computeWorld, hf]
  | succ n => simp [TransformStore.computeWorld, hf, hnd c]

theorem propagate_find (s : TransformStore) (x : Entity) :
    s.propagate.find x =
      (s.find x).map fun v => { v with world := s.computeWorld s.fuel s.fuel x } := by
  unfold TransformStore.propagate TransformStore.find
  exact lookupEntry_map s.entries
    (fun k v => { v with world := s.computeWorld s.fuel s.fuel k }) x

theorem propagate_world_mem {s : TransformStore} {p : Entity × TransformEntry}
    (h : p ∈ s.propagate.entries) :
    p.2.world = s.computeWorld s.fuel s.fuel p.1 := by
  unfold TransformStore.propagate at h
  simp only [List.mem_map] at h
  obtain ⟨q, _, hq⟩ := h
  rw [← hq]

theorem computeWorld_fuel_congr {s : TransformStore} {c : Nat} :
    ∀ {f : Nat} {e : Entity}, s.rooted f e = true →
      ∀ {f₁ f₂ : Nat}, f ≤ f₁ → f ≤ f₂ →
        s.computeWorld c f₁ e = s.computeWorld c f₂ e := by
  intro f
  induction f with
  | zero =>
    intro e h
    simp [TransformStore.rooted] at h
  | succ n ih =>
    intro e h f₁ f₂ h₁ h₂
    cases hf : s.find e with
    | none =>
      cases f₁ with
      | zero => cases f₂ with
        | zero => rfl
        | succ b => simp [TransformStore.computeWorld, hf]
      | succ a => cases f₂ with
        | zero => simp [TransformStore.computeWorld, hf]
        | succ b => simp [TransformStore.computeWorld, hf]
    | some ent =>
      simp only [TransformStore.rooted, hf] at h
      cases f₁ with
      | zero => omega
      | succ a =>
        cases f₂ with
        | zero => omega
        | succ b =>
          cases hp : ent.parent with
          | none => simp [TransformStore.computeWorld, hf, hp]
          | some p =>
            simp only [hp] at h
            have hrec := @ih p h a b (by omega) (by omega)
            simp [TransformStore.computeWorld, hf, hp, hrec]

theorem store_eq_of_fields {a b : TransformStore} (h1 : a.entries = b.entries)
    (h2 : a.dirty = b.dirty) : a = b := by
  cases a
  cases b
  cases h1
  cases h2
  rfl

theorem list_map_self {α : Type} {l : List α} {f : α → α}
    (h : ∀ a ∈ l, f a = a) : l.map f = l := by
  induction l with
  | nil => rfl
  | cons a t ih =>
    rw [List.map_cons, h a (by simp), ih]
    intro b hb
    exact h b (by simp [hb])

/-- C4: propagation is idempotent — a second `propagate` with no
intervening mutation or dirty-marking changes nothing (the dirty set is
cleared by the first pass, so the recompute closure of the second pass is
empty and every cached world matrix is kept). -/
theorem propagate_idempotent (s : TransformStore) :
    s.propagate.propagate = s.propagate := by
  have hd : s.propagate.dirty = [] := rfl
  have hnd := dirtyUpward_nil hd
  have hworld : ∀ p ∈ s.propagate.entries,
      s.propagate.computeWorld s.propagate.fuel s.propagate.fuel p.1 = p.2.world := by
    intro p hp
    obtain ⟨pk, pv⟩ := p
    have hkey : (s.propagate.find pk).isSome = true :=
      lookupEntry_isSome_of_mem hp
    obtain ⟨v, hv⟩ := Option.isSome_iff_exists.mp hkey
    have hvw : v.world = s.computeWorld s.fuel s.fuel pk :=
      propagate_world_mem (lookupEntry_some_mem hv)
    have hpw : pv.world = s.computeWorld s.fuel s.fuel pk :=
      propagate_world_mem hp
    rw [computeWorld_cached (fun n => hnd n pk) hv, hvw, hpw]
  apply store_eq_of_fields
  · show (s.propagate.entries.map fun p =>
        (p.1, { p.2 with world :=
          s.propagate.computeWorld s.propagate.fuel s.propagate.fuel p.1 })) =
      s.propagate.entries
    apply list_map_self
    intro p hp
    rw [hworld p hp]
  · rfl

/-- C2: marking only a parent dirty and propagating recomputes the child's
world matrix as well: the child's propagated world matrix is the parent's
propagated world matrix composed with the child's local matrix. -/
theorem dirty_propagation_correctness (s : TransformStore) (c p : Entity)
    (entC entP : TransformEntry) (hwf : s.wf = true)
    (hc : s.find c = some entC) (hp : s.find p = some entP)
    (hpar : entC.parent = some p) (hd : s.dirty = [p]) :
    ∃ wP, s.propagate.worldMatrix p = some wP ∧
      s.propagate.worldMatrix c =
        some (Mat4.mul wP (localMatrix entC.localTransform)) := by
  obtain ⟨m, hm⟩ : ∃ m, s.entries.length = m + 1 := by
    cases hl : s.entries with
    | nil =>
      rw [TransformStore.find, hl] at hc
      simp [lookupEntry] at hc
    | cons a t => exact ⟨t.length, by simp⟩
  have hfuel : s.fuel = s.entries.length + 1 := rfl
  have hrootP : s.rooted s.entries.length p = true := wf_rooted hwf hp
  have hdP : s.dirtyUpward s.entries.length p = true := by
    rw [hm]
    simp [TransformStore.dirtyUpward, hd]
  have hinC : s.dirtyUpward s.fuel c = true := by
    rw [hfuel]
    simp [TransformStore.dirtyUpward, hc, hpar, hdP]
  have hcwC : s.computeWorld s.fuel s.fuel c =
      Mat4.mul (s.computeWorld s.fuel s.fuel p) (localMatrix entC.localTransform) := by
    rw [hfuel] at hinC
    have h1 : s.computeWorld (s.entries.length + 1) (s.entries.length + 1) c =
        Mat4.mul (s.computeWorld (s.entries.length + 1) s.entries.length p)
          (localMatrix entC.localTransform) := by
      simp only [TransformStore.computeWorld, hc, hinC, if_true, hpar]
    have h2 : s.computeWorld (s.entries.length + 1) s.entries.length p =
        s.computeWorld (s.entries.length + 1) (s.entries.length + 1) p :=
      computeWorld_fuel_congr hrootP (Nat.le_refl _) (Nat.le_succ _)
    rw [hfuel, h1, h2]
  refine ⟨s.computeWorld s.fuel s.fuel p, ?_, ?_⟩
  · unfold TransformStore.worldMatrix
    rw [propagate_find, hp]
    rfl
  · unfold TransformStore.worldMatrix
    rw [propagate_find, hc]
    simp [hcwC]

/-- The parent-link shape a store presents to ancestor walks. -/
def parentShape (s : TransformStore) (e : Entity) : Option (Option Entity) :=
  (s.find e).map TransformEntry.parent

theorem rooted_congr {s s' : TransformStore}
    (h : ∀ x, parentShape s' x = parentShape s x) :
    ∀ (n : Nat) (e : Entity), s'.rooted n e = s.rooted n e := by
  intro n
  induction n with
  | zero => intro e; rfl
  | succ n ih =>
    intro e
    have he := h e
    unfold parentShape at he
    cases hf : s.find e with
    | none =>
      rw [hf] at he
      have hf' : s'.find e = none := by
        cases hg : s'.find e with
        | none => rfl
        | some v =>
          rw [hg] at he
          simp at he
      simp [TransformStore.rooted, hf, hf']
    | some ent =>
      rw [hf] at he
      cases hg : s'.find e with
      | none =>
        rw [hg] at he
        simp at he
      | some ent' =>
        rw [hg] at he
        have hpp : ent'.parent = ent.parent := by simpa using he
        cases hpar : ent.parent with
        | none => simp [TransformStore.rooted, hf, hg, hpar, hpp]
        | some p => simp [TransformStore.rooted, hf, hg, hpar, hpp, ih]

theorem parentShape_modifyLocal (s : TransformStore) (e : Entity)
    (f : LocalTransform → LocalTransform) (x : Entity) :
    parentShape (s.modifyLocal e f) x = parentShape s x := by
  unfold parentShape
  rw [find_modifyLocal]
  cases s.find x with
  | none => rfl
  | some v => by_cases hx : x = e <;> simp [hx]

theorem parentShape_markDirty (s : TransformStore) (e : Entity) (x : Entity) :
    parentShape (s.markDirty e) x = parentShape s x := by
  unfold parentShape
  rw [find_markDirty]

/-- C1: the explicit-dirty contract.  Mutating an entity's local transform
through `get_mut` (here: `modifyLocal`) and propagating without an
intervening `mark_dirty` leaves the entity's world matrix unchanged; after a
subsequent `mark_dirty` and `propagate` the world matrix reflects the
mutated transform (composed onto the parent's propagated matrix when the
entity has a parent). -/
theorem explicit_dirty_contract (s : TransformStore) (e : Entity)
    (ent : TransformEntry) (f : LocalTransform → LocalTransform)
    (hwf : s.wf = true) (hd : s.dirty = []) (hfind : s.find e = some ent)
    (hparent : ∀ p, ent.parent = some p → (s.find p).isSome = true) :
    ((s.modifyLocal e f).propagate.worldMatrix e = some ent.world) ∧
    (match ent.parent with
     | none =>
       ((s.modifyLocal e f).markDirty e).propagate.worldMatrix e =
         some (localMatrix (f ent.localTransform))
     | some p =>
       ∃ wP, ((s.modifyLocal e f).markDirty e).propagate.worldMatrix p = some wP ∧
         ((s.modifyLocal e f).markDirty e).propagate.worldMatrix e =
           some (Mat4.mul wP (localMatrix (f ent.localTransform)))) := by
  have hent₁ : (s.modifyLocal e f).find e =
      some { ent with localTransform := f ent.localTransform } := by
    rw [find_modifyLocal, hfind]
    simp
  have hd₁ : (s.modifyLocal e f).dirty = [] := by
    rw [modifyLocal_dirty, hd]
  constructor
  · unfold TransformStore.worldMatrix
    rw [propagate_find, hent₁]
    have := computeWorld_cached (dirtyUpward_nil hd₁ · e) hent₁
      (s.modifyLocal e f).fuel (s.modifyLocal e f).fuel
    simp [this]
  · have hent₂ : ((s.modifyLocal e f).markDirty e).find e =
        some { ent with localTransform := f ent.localTransform } := by
      rw [find_markDirty]
      exact hent₁
    have hd₂ : ((s.modifyLocal e f).markDirty e).dirty = [e] := by
      rw [markDirty_dirty_of_fresh (by rw [hent₁]; rfl) (by rw [hd₁]; simp), hd₁]
    have hlen₂ : ((s.modifyLocal e f).markDirty e).entries.length =
        s.entries.length := by
      rw [markDirty_entries, modifyLocal_length]
    have hfuel₂ : ((s.modifyLocal e f).markDirty e).fuel =
        ((s.modifyLocal e f).markDirty e).entries.length + 1 := rfl
    have hshape : ∀ x, parentShape ((s.modifyLocal e f).markDirty e) x =
        parentShape s x := by
      intro x
      rw [parentShape_markDirty, parentShape_modifyLocal]
    have hinE : ((s.modifyLocal e f).markDirty e).dirtyUpward
        (((s.modifyLocal e f).markDirty e).entries.length + 1) e = true := by
      simp [TransformStore.dirtyUpward, hd₂]
    cases hpar : ent.parent with
    | none =>
      unfold TransformStore.worldMatrix
      rw [propagate_find, hent₂]
      have hcw : ((s.modifyLocal e f).markDirty e).computeWorld
          (((s.modifyLocal e f).markDirty e).entries.length + 1)
          (((s.modifyLocal e f).markDirty e).entries.length + 1) e =
          localMatrix (f ent.localTransform) := by
        simp only [TransformStore.computeWorld, hent₂, hinE, if_true]
        rw [hpar]
      rw [hfuel₂]
      simp [hcw]
    | some p =>
      obtain ⟨entP, hfp⟩ := Option.isSome_iff_exists.mp (hparent p hpar)
      have hrootP : ((s.modifyLocal e f).markDirty e).rooted
          ((s.modifyLocal e f).markDirty e).entries.length p = true := by
        rw [rooted_congr hshape, hlen₂]
        exact wf_rooted hwf hfp
      have hfp₂ : (((s.modifyLocal e f).markDirty e).find p).isSome = true := by
        rw [find_markDirty, find_modifyLocal, hfp]
        rfl
      obtain ⟨entP₂, hfp₂'⟩ := Option.isSome_iff_exists.mp hfp₂
      have hcw : ((s.modifyLocal e f).markDirty e).computeWorld
          (((s.modifyLocal e f).markDirty e).entries.length + 1)
          (((s.modifyLocal e f).markDirty e).entries.length + 1) e =
          Mat4.mul
            (((s.modifyLocal e f).markDirty e).computeWorld
              (((s.modifyLocal e f).markDirty e).entries.length + 1)
              (((s.modifyLocal e f).markDirty e).entries.length + 1) p)
            (localMatrix (f ent.localTransform)) := by
        have h1 : ((s.modifyLocal e f).markDirty e).computeWorld
            (((s.modifyLocal e f).markDirty e).entries.length + 1)
            (((s.modifyLocal e f).markDirty e).entries.length + 1) e =
            Mat4.mul
              (((s.modifyLocal e f).markDirty e).computeWorld
                (((s.modifyLocal e f).markDirty e).entries.length + 1)
                ((s.modifyLocal e f).markDirty e).entries.length p)
              (localMatrix (f ent.localTransform)) := by
          simp only [TransformStore.computeWorld, hent₂, hinE, if_true]
          rw [hpar]
        rw [h1, computeWorld_fuel_congr hrootP (Nat.le_refl _) (Nat.le_succ _)]
      refine ⟨((s.modifyLocal e f).markDirty e).computeWorld
          (((s.modifyLocal e f).markDirty e).fuel)
          (((s.modifyLocal e f).markDirty e).fuel) p, ?_, ?_⟩
      · unfold TransformStore.worldMatrix
        rw [propagate_find, hfp₂']
        rfl
      · unfold TransformStore.worldMatrix
        rw [propagate_find, hent₂]
        simp only [hfuel₂]
        simp [hcw]

theorem setParent_some_elim {s s₁ : TransformStore} {A B : Entity}
    (h : s.setParent A (some B) = some s₁) :
    (∃ entA, s.find A = some entA) ∧ (s.find B).isSome = true ∧
      A ∉ s.ancestorChain s.fuel B ∧
      s₁ = (s.setParentLink A (some B)).markDirty A := by
  cases hfA : s.find A with
  | none =>
    simp only [TransformStore.setParent, hfA] at h
    cases h
  | some entA =>
    simp only [TransformStore.setParent, hfA] at h
    by_cases h1 : (s.find B).isNone = true
    · rw [if_pos h1] at h
      cases h
    · rw [if_neg h1] at h
      by_cases h2 : A ∈ s.ancestorChain s.fuel B
      · rw [if_pos h2] at h
        cases h
      · rw [if_neg h2] at h
        refine ⟨⟨entA, rfl⟩, ?_, h2, (Option.some.inj h).symm⟩
        cases hfB : s.find B with
        | none => rw [hfB] at h1; simp at h1
        | some entB => rfl

/-- C5: cycle rejection with atomicity.  After `set_parent A (some B)`
succeeds, the reverse assignment `set_parent B (some A)` is rejected, the
rejection mutates nothing (in this functional model a rejected call returns
`none` and no new store), A's parent link is B and B's parent link is
untouched; and `insert` of B under parent A is rejected by the same rule. -/
theorem cycle_rejection_atomicity (s : TransformStore) (A B : Entity)
    (s₁ : TransformStore) (h : s.setParent A (some B) = some s₁) :
    s₁.setParent B (some A) = none ∧
    (s₁.find A).map TransformEntry.parent = some (some B) ∧
    (s₁.find B).map TransformEntry.parent = (s.find B).map TransformEntry.parent ∧
    (∀ (reg : EntityRegistry) (lt : LocalTransform),
      s₁.insert reg B lt (some A) = none) := by
  obtain ⟨⟨entA, hfA⟩, hfBsome, hnc, hs₁⟩ := setParent_some_elim h
  obtain ⟨entB, hfB⟩ := Option.isSome_iff_exists.mp hfBsome
  obtain ⟨m, hm⟩ : ∃ m, s.entries.length = m + 1 := by
    cases hl : s.entries with
    | nil =>
      rw [TransformStore.find, hl] at hfA
      simp [lookupEntry] at hfA
    | cons a t => exact ⟨t.length, by simp⟩
  have hAB : A ≠ B := by
    intro heq
    apply hnc
    rw [heq]
    have : s.fuel = m + 1 + 1 := by unfold TransformStore.fuel; rw [hm]
    rw [this]
    simp [TransformStore.ancestorChain]
  have hfA₁ : s₁.find A = some { entA with parent := some B } := by
    rw [hs₁, find_markDirty, find_setParentLink, hfA]
    simp
  have hfB₁ : s₁.find B = some entB := by
    rw [hs₁, find_markDirty, find_setParentLink_ne _ _ _ (Ne.symm hAB), hfB]
  have hlen₁ : s₁.entries.length = s.entries.length := by
    rw [hs₁, markDirty_entries, setParentLink_length]
  have hfuel₁ : s₁.fuel = m + 1 + 1 := by
    unfold TransformStore.fuel
    rw [hlen₁, hm]
  have hmem : B ∈ s₁.ancestorChain s₁.fuel A := by
    rw [hfuel₁]
    simp [TransformStore.ancestorChain, hfA₁]
  refine ⟨?_, ?_, ?_, ?_⟩
  · simp only [TransformStore.setParent, hfB₁, hfA₁]
    rw [if_neg (by simp), if_pos hmem]
  · rw [hfA₁]
    rfl
  · rw [hfB₁, hfB]
  · intro reg lt
    unfold TransformStore.insert
    by_cases hB : reg.isAlive B = false
    · rw [if_pos hB]
    · rw [if_neg hB]
      dsimp only
      by_cases hA : reg.isAlive A = false
      · rw [if_pos hA]
      · rw [if_neg hA, if_pos hmem]

/-! ### Concrete witness data -/

/-- A root record at the origin with identity rotation and unit scale. -/
def wEntRoot : TransformEntry :=
  ⟨⟨⟨0, 0, 0⟩, Quat.id, ⟨1, 1, 1⟩⟩, none, Mat4.id⟩

/-- A root record translated to (1,0,0). -/
def wEntP : TransformEntry :=
  ⟨⟨⟨1, 0, 0⟩, Quat.id, ⟨1, 1, 1⟩⟩, none, Mat4.id⟩

/-- A child of entity ⟨0,0⟩ translated to (2,0,0). -/
def wEntC : TransformEntry :=
  ⟨⟨⟨2, 0, 0⟩, Quat.id, ⟨1, 1, 1⟩⟩, some ⟨0, 0⟩, Mat4.id⟩

/-- Parent/child store with only the parent marked dirty. -/
def wStoreDirtyP : TransformStore :=
  ⟨[(⟨0, 0⟩, wEntP), (⟨1, 0⟩, wEntC)], [⟨0, 0⟩]⟩

/-- Parent/child store with an empty dirty set. -/
def wStoreClean : TransformStore :=
  ⟨[(⟨0, 0⟩, wEntP), (⟨1, 0⟩, wEntC)], []⟩

/-- A field mutation: overwrite the translation with (3,0,0). -/
def wMut : LocalTransform → LocalTransform :=
  fun lt => { lt with translation := ⟨3, 0, 0⟩ }

/-- Two unrelated root entities. -/
def wStorePair : TransformStore :=
  ⟨[(⟨0, 0⟩, wEntRoot), (⟨1, 0⟩, wEntRoot)], []⟩

/-- `wStorePair` after `set_parent ⟨0,0⟩ (some ⟨1,0⟩)` succeeded. -/
def wStorePairAfter : TransformStore :=
  ⟨[(⟨0, 0⟩, ⟨wEntRoot.localTransform, some ⟨1, 0⟩, Mat4.id⟩),
    (⟨1, 0⟩, wEntRoot)], [⟨0, 0⟩]⟩

/-- Registry run: spawn, despawn the first handle, spawn again (index 0 is
reused with generation 1). -/
def wOps : List RegOp := [RegOp.spawn, RegOp.despawn ⟨0, 0⟩, RegOp.spawn]

/-- Witness for C3 on a concrete spawn/despawn/spawn run: uniqueness of a
live handle, strictly increasing generation across the reuse, and the stale
handle rejected. -/
theorem entity_identity_uniqueness_witness :
    ((⟨0, 1⟩ : Entity) = ⟨0, 1⟩) ∧
    ((runReg wOps).2.get ⟨0, by decide⟩).generation <
      ((runReg wOps).2.get ⟨1, by decide⟩).generation ∧
    (runReg wOps).1.isAlive ((runReg wOps).2.get ⟨0, by decide⟩) = false :=
  ⟨(entity_identity_uniqueness wOps).1 ⟨0, 1⟩ ⟨0, 1⟩ (by decide) (by decide) rfl,
   (entity_identity_uniqueness wOps).2.1 ⟨0, by decide⟩ ⟨1, by decide⟩
     (by decide) (by decide),
   (entity_identity_uniqueness wOps).2.2 ⟨0, by decide⟩ ⟨1, by decide⟩
     (by decide) (by decide)⟩

/-- Witness for C2 at a concrete two-entity store: only the parent is dirty,
and the child's propagated world matrix is the parent's propagated matrix
composed with the child's local matrix. -/
theorem dirty_propagation_witness :
    ∃ wP, wStoreDirtyP.propagate.worldMatrix ⟨0, 0⟩ = some wP ∧
      wStoreDirtyP.propagate.worldMatrix ⟨1, 0⟩ =
        some (Mat4.mul wP (localMatrix wEntC.localTransform)) :=
  dirty_propagation_correctness wStoreDirtyP ⟨1, 0⟩ ⟨0, 0⟩ wEntC wEntP
    (by decide) (by decide) (by decide) rfl rfl

/-- Witness for C1 at a concrete parent/child store: mutate the child's
translation without marking, propagate (world matrix unchanged), then mark
and propagate (world matrix reflects the mutation). -/
theorem explicit_dirty_contract_witness :
    ((wStoreClean.modifyLocal ⟨1, 0⟩ wMut).propagate.worldMatrix ⟨1, 0⟩ =
      some wEntC.world) ∧
    (∃ wP,
      ((wStoreClean.modifyLocal ⟨1, 0⟩ wMut).markDirty ⟨1, 0⟩).propagate.worldMatrix
          ⟨0, 0⟩ = some wP ∧
      ((wStoreClean.modifyLocal ⟨1, 0⟩ wMut).markDirty ⟨1, 0⟩).propagate.worldMatrix
          ⟨1, 0⟩ =
        some (Mat4.mul wP (localMatrix (wMut wEntC.localTransform)))) :=
  explicit_dirty_contract wStoreClean ⟨1, 0⟩ wEntC wMut (by decide) rfl (by decide)
    (by intro p hp; simp [wEntC] at hp; subst hp; decide)

/-- Witness for C5 at a concrete two-entity store: after parenting A under B,
the reverse assignment and the cyclic insert are both rejected and the links
are intact. -/
theorem cycle_rejection_witness :
    wStorePairAfter.setParent ⟨1, 0⟩ (some ⟨0, 0⟩) = none ∧
    (wStorePairAfter.find ⟨0, 0⟩).map TransformEntry.parent = some (some ⟨1, 0⟩) ∧
    (wStorePairAfter.find ⟨1, 0⟩).map TransformEntry.parent =
      (wStorePair.find ⟨1, 0⟩).map TransformEntry.parent ∧
    (∀ (reg : EntityRegistry) (lt : LocalTransform),
      wStorePairAfter.insert reg ⟨1, 0⟩ lt (some ⟨0, 0⟩) = none) :=
  cycle_rejection_atomicity wStorePair ⟨0, 0⟩ ⟨1, 0⟩ wStorePairAfter (by decide)

/-! ### OrbitCameraController -/

/-- Modelled from the spec (§3 `OrbitState`): target point, distance, yaw
and pitch per camera entity. -/
structure OrbitState where
  target : Vec3
  distance : ℚ
  yaw : ℚ
  pitch : ℚ
deriving DecidableEq

/-- Modelled from the spec (§4.4 `update`): yaw/pitch deltas from pointer
drag and a zoom delta from scroll. -/
structure OrbitInput where
  yawDelta : ℚ
  pitchDelta : ℚ
  zoomDelta : ℚ
deriving DecidableEq

/-- The world-up reference vector. -/
def worldUp : Vec3 := ⟨0, 1, 0⟩

/-- The camera-forward reference vector (looking down negative z). -/
def forwardVec : Vec3 := ⟨0, 0, -1⟩

/-- Numeric environment of the controller.  The original works over `f32`
with library trigonometry and look-at; those operations are not computable
over `ℚ`, so they are parameters here: `sinA`/`cosA` stand for sine and
cosine, `lookRotation pos target up` for the "look at target from pos with
up as reference" orientation, `tau` for the full turn `2π`, `pitchLimit`
for the clamp bound (strictly less than a quarter turn), and `minDistance`
for the strictly positive distance floor. -/
structure OrbitEnv where
  sinA : ℚ → ℚ
  cosA : ℚ → ℚ
  lookRotation : Vec3 → Vec3 → Vec3 → Quat
  tau : ℚ
  pitchLimit : ℚ
  minDistance : ℚ

/-- Wrap an angle into `[0, tau)` by subtracting whole turns. -/
def wrapAngle (tau x : ℚ) : ℚ := x - tau * (⌊x / tau⌋ : ℚ)

/-- Clamp `x` into `[lo, hi]`. -/
def clampQ (lo hi x : ℚ) : ℚ := min hi (max lo x)

/-- Unit offset direction of the camera on its orbit sphere; at yaw 0 and
pitch 0 this is the x-axis reference direction (1,0,0). -/
def sphericalToCartesian (env : OrbitEnv) (yaw pitch : ℚ) : Vec3 :=
  ⟨env.cosA pitch * env.cosA yaw, env.sinA pitch, env.cosA pitch * env.sinA yaw⟩

/-- Modelled from the spec (§4.4 `update`): wrap yaw modulo a full turn,
clamp pitch into the open pole-free interval (via a closed clamp at
`pitchLimit`, itself strictly inside the quarter turn), clamp distance to
the strictly positive minimum, then derive the camera transform as
`target + distance * sphericalToCartesian(yaw, pitch)` looking at the
target.  The spec leaves the coupling of the input deltas to `dt`
unspecified; the deltas are applied directly and `dt` is kept in the
signature.  The call is total: degenerate input is clamped, never an
error. -/
def OrbitState.update (env : OrbitEnv) (st : OrbitState) (inp : OrbitInput)
    (dt : ℚ) : OrbitState × LocalTransform :=
  let _ := dt
  let yaw := wrapAngle env.tau (st.yaw + inp.yawDelta)
  let pitch := clampQ (-env.pitchLimit) env.pitchLimit (st.pitch + inp.pitchDelta)
  let distance := max env.minDistance (st.distance + inp.zoomDelta)
  let position := st.target.add (Vec3.smul distance (sphericalToCartesian env yaw pitch))
  ({ st with yaw := yaw, pitch := pitch, distance := distance },
   ⟨position, env.lookRotation position st.target worldUp, ⟨1, 1, 1⟩⟩)

/-- Iterate `update` over a sequence of inputs with time steps. -/
def OrbitState.updateSeq (env : OrbitEnv) (st : OrbitState)
    (inps : List (OrbitInput × ℚ)) : OrbitState :=
  inps.foldl (fun acc pr => (OrbitState.update env acc pr.1 pr.2).1) st

/-- Modelled from the spec (§4.4): the controller writes the derived
transform into the entity's LocalTransform through the store and marks it
dirty. -/
def orbitCameraUpdateStore (env : OrbitEnv) (s : TransformStore) (e : Entity)
    (st : OrbitState) (inp : OrbitInput) (dt : ℚ) : TransformStore × OrbitState :=
  let upd := OrbitState.update env st inp dt
  ((s.setLocal e upd.2).markDirty e, upd.1)

theorem wrapAngle_nonneg {tau : ℚ} (h : 0 < tau) (x : ℚ) :
    0 ≤ wrapAngle tau x := by
  unfold wrapAngle
  have h1 : (⌊x / tau⌋ : ℚ) ≤ x / tau := Int.floor_le _
  have h2 : tau * (⌊x / tau⌋ : ℚ) ≤ tau * (x / tau) :=
    mul_le_mul_of_nonneg_left h1 (le_of_lt h)
  have h3 : tau * (x / tau) = x := by
    field_simp
  linarith

theorem wrapAngle_lt {tau : ℚ} (h : 0 < tau) (x : ℚ) :
    wrapAngle tau x < tau := by
  unfold wrapAngle
  have h1 : x / tau < (⌊x / tau⌋ : ℚ) + 1 := Int.lt_floor_add_one _
  have h2 : tau * (x / tau) < tau * ((⌊x / tau⌋ : ℚ) + 1) :=
    mul_lt_mul_of_pos_left h1 h
  have h3 : tau * (x / tau) = x := by
    field_simp
  nlinarith

theorem mem_markDirty_self {s : TransformStore} {e : Entity}
    (h : (s.find e).isSome = true) : e ∈ (s.markDirty e).dirty := by
  unfold TransformStore.markDirty
  by_cases hd : e ∈ s.dirty
  · rw [if_neg]
    · exact hd
    · intro hc
      exact hc.2 hd
  · rw [if_pos ⟨h, hd⟩]
    simp

/-- C6: whatever pitch delta is requested, the updated pitch stays in
`[-pitchLimit, pitchLimit]`, which is strictly inside the open pole-free
interval `(-tau/4, tau/4)`; a request at or past the boundary clamps to the
boundary value rather than wrapping. -/
theorem orbit_pitch_clamp (env : OrbitEnv) (st : OrbitState) (inp : OrbitInput)
    (dt : ℚ) (h1 : 0 ≤ env.pitchLimit) (h2 : env.pitchLimit < env.tau / 4) :
    -(env.tau / 4) < (OrbitState.update env st inp dt).1.pitch ∧
    (OrbitState.update env st inp dt).1.pitch < env.tau / 4 ∧
    (env.pitchLimit ≤ st.pitch + inp.pitchDelta →
      (OrbitState.update env st inp dt).1.pitch = env.pitchLimit) ∧
    (st.pitch + inp.pitchDelta ≤ -env.pitchLimit →
      (OrbitState.update env st inp dt).1.pitch = -env.pitchLimit) := by
  have hp : (OrbitState.update env st inp dt).1.pitch =
      clampQ (-env.pitchLimit) env.pitchLimit (st.pitch + inp.pitchDelta) := rfl
  rw [hp]
  unfold clampQ
  have hmax : -env.pitchLimit ≤ max (-env.pitchLimit) (st.pitch + inp.pitchDelta) :=
    le_max_left _ _
  have hminle : min env.pitchLimit (max (-env.pitchLimit) (st.pitch + inp.pitchDelta)) ≤
      env.pitchLimit := min_le_left _ _
  have hminge : -env.pitchLimit ≤
      min env.pitchLimit (max (-env.pitchLimit) (st.pitch + inp.pitchDelta)) :=
    le_min (by linarith) hmax
  refine ⟨by linarith, by linarith, ?_, ?_⟩
  · intro hx
    rw [max_eq_right (by linarith), min_eq_left hx]
  · intro hx
    rw [max_eq_left hx, min_eq_right (by linarith)]

/-- C7: a zoom request driving the distance to zero or below is clamped to
the strictly positive minimum and the call succeeds (`update` is total); the
updated distance is always strictly positive. -/
theorem orbit_distance_clamp (env : OrbitEnv) (st : OrbitState) (inp : OrbitInput)
    (dt : ℚ) (h : 0 < env.minDistance) :
    0 < (OrbitState.update env st inp dt).1.distance ∧
    (st.distance + inp.zoomDelta ≤ 0 →
      (OrbitState.update env st inp dt).1.distance = env.minDistance) := by
  have hd : (OrbitState.update env st inp dt).1.distance =
      max env.minDistance (st.distance + inp.zoomDelta) := rfl
  rw [hd]
  refine ⟨lt_of_lt_of_le h (le_max_left _ _), ?_⟩
  intro hz
  exact max_eq_left (by linarith)

/-- C8: across every nonempty sequence of updates, the stored yaw is wrapped
into `[0, tau)` — it stays bounded instead of growing without limit. -/
theorem orbit_yaw_wrap (env : OrbitEnv) (h : 0 < env.tau) (st : OrbitState)
    (inps : List (OrbitInput × ℚ)) (hne : inps ≠ []) :
    0 ≤ (OrbitState.updateSeq env st inps).yaw ∧
    (OrbitState.updateSeq env st inps).yaw < env.tau := by
  have hstep : ∀ (a : OrbitState) (pr : OrbitInput × ℚ),
      0 ≤ (OrbitState.update env a pr.1 pr.2).1.yaw ∧
      (OrbitState.update env a pr.1 pr.2).1.yaw < env.tau := by
    intro a pr
    have hy : (OrbitState.update env a pr.1 pr.2).1.yaw =
        wrapAngle env.tau (a.yaw + pr.1.yawDelta) := rfl
    rw [hy]
    exact ⟨wrapAngle_nonneg h _, wrapAngle_lt h _⟩
  obtain ⟨a, t, rfl⟩ : ∃ a t, inps = a :: t := by
    cases inps with
    | nil => exact absurd rfl hne
    | cons a t => exact ⟨a, t, rfl⟩
  clear hne
  induction t generalizing st a with
  | nil => exact hstep st a
  | cons b u ih => exact ih (OrbitState.update env st a.1 a.2).1 b

/-- C9: a zero-input update of an orbit camera at target (0,0,0),
distance 8, yaw 0, pitch 0 leaves the orbit state unchanged, places the
camera at the zero-reference direction `target + 8·(1,0,0) = (8,0,0)`, its
look rotation turns the forward vector toward the origin (a positive
multiple of `target - position`), and the derived transform is written into
the entity's LocalTransform and the entity marked dirty. -/
theorem orbit_zero_input (env : OrbitEnv) (s : TransformStore) (e : Entity)
    (ent : TransformEntry) (dt : ℚ) (hfind : s.find e = some ent)
    (hs0 : env.sinA 0 = 0) (hc0 : env.cosA 0 = 1)
    (hpl : 0 ≤ env.pitchLimit) (hmd : env.minDistance ≤ 8)
    (hlook : ∃ cf, 0 < cf ∧
      Quat.rotateVec (env.lookRotation ⟨8, 0, 0⟩ ⟨0, 0, 0⟩ worldUp) forwardVec =
        Vec3.smul cf (Vec3.sub ⟨0, 0, 0⟩ ⟨8, 0, 0⟩)) :
    ((OrbitState.update env ⟨⟨0, 0, 0⟩, 8, 0, 0⟩ ⟨0, 0, 0⟩ dt).1 =
      ⟨⟨0, 0, 0⟩, 8, 0, 0⟩) ∧
    ((OrbitState.update env ⟨⟨0, 0, 0⟩, 8, 0, 0⟩ ⟨0, 0, 0⟩ dt).2.translation =
      ⟨8, 0, 0⟩) ∧
    (∃ cf, 0 < cf ∧
      Quat.rotateVec
          ((OrbitState.update env ⟨⟨0, 0, 0⟩, 8, 0, 0⟩ ⟨0, 0, 0⟩ dt).2.rotation)
          forwardVec =
        Vec3.smul cf (Vec3.sub ⟨0, 0, 0⟩ ⟨8, 0, 0⟩)) ∧
    ((orbitCameraUpdateStore env s e ⟨⟨0, 0, 0⟩, 8, 0, 0⟩ ⟨0, 0, 0⟩ dt).1.find e =
      some ⟨(OrbitState.update env ⟨⟨0, 0, 0⟩, 8, 0, 0⟩ ⟨0, 0, 0⟩ dt).2,
        ent.parent, ent.world⟩) ∧
    (e ∈ (orbitCameraUpdateStore env s e ⟨⟨0, 0, 0⟩, 8, 0, 0⟩ ⟨0, 0, 0⟩ dt).1.dirty) := by
  have hyaw : wrapAngle env.tau ((0 : ℚ) + 0) = 0 := by
    simp [wrapAngle]
  have hpitch : clampQ (-env.pitchLimit) env.pitchLimit ((0 : ℚ) + 0) = 0 := by
    unfold clampQ
    rw [add_zero, max_eq_right (by linarith), min_eq_right hpl]
  have hdist : max env.minDistance ((8 : ℚ) + 0) = 8 := by
    rw [add_zero]
    exact max_eq_right hmd
  have hupd : OrbitState.update env ⟨⟨0, 0, 0⟩, 8, 0, 0⟩ ⟨0, 0, 0⟩ dt =
      (⟨⟨0, 0, 0⟩, 8, 0, 0⟩,
       ⟨⟨8, 0, 0⟩, env.lookRotation ⟨8, 0, 0⟩ ⟨0, 0, 0⟩ worldUp, ⟨1, 1, 1⟩⟩) := by
    unfold OrbitState.update
    simp only [hyaw, hpitch, hdist, sphericalToCartesian, hs0, hc0]
    norm_num [Vec3.add, Vec3.smul]
  refine ⟨?_, ?_, ?_, ?_, ?_⟩
  · rw [hupd]
  · rw [hupd]
  · rw [hupd]
    exact hlook
  · show ((s.setLocal e _).markDirty e).find e = _
    unfold TransformStore.setLocal
    rw [find_markDirty, find_modifyLocal, hfind]
    simp
  · show e ∈ ((s.setLocal e _).markDirty e).dirty
    apply mem_markDirty_self
    unfold TransformStore.setLocal
    rw [find_modifyLocal, hfind]
    rfl

/-- Concrete environment for orbit witnesses: trig stubs exact at angle 0,
an (unnormalized) quarter-turn yaw quaternion as the look-at result — valid
at the witness inputs — and rational stand-ins for the constants: tau ≈ 2π,
a pitch limit below the quarter turn, and a positive distance floor. -/
def wEnv : OrbitEnv :=
  ⟨fun _ => 0, fun _ => 1, fun _ _ _ => ⟨1, 0, 1, 0⟩, 44 / 7, 3 / 2, 1 / 10⟩

/-- Witness for C6: a pitch delta of 10 is clamped to the limit, strictly
inside the pole-free interval. -/
theorem orbit_pitch_clamp_witness :
    -(wEnv.tau / 4) <
      (OrbitState.update wEnv ⟨⟨0, 0, 0⟩, 8, 0, 0⟩ ⟨0, 10, 0⟩ 1).1.pitch ∧
    (OrbitState.update wEnv ⟨⟨0, 0, 0⟩, 8, 0, 0⟩ ⟨0, 10, 0⟩ 1).1.pitch <
      wEnv.tau / 4 ∧
    (wEnv.pitchLimit ≤ (⟨⟨0, 0, 0⟩, 8, 0, 0⟩ : OrbitState).pitch +
        (⟨0, 10, 0⟩ : OrbitInput).pitchDelta →
      (OrbitState.update wEnv ⟨⟨0, 0, 0⟩, 8, 0, 0⟩ ⟨0, 10, 0⟩ 1).1.pitch =
        wEnv.pitchLimit) ∧
    ((⟨⟨0, 0, 0⟩, 8, 0, 0⟩ : OrbitState).pitch +
        (⟨0, 10, 0⟩ : OrbitInput).pitchDelta ≤ -wEnv.pitchLimit →
      (OrbitState.update wEnv ⟨⟨0, 0, 0⟩, 8, 0, 0⟩ ⟨0, 10, 0⟩ 1).1.pitch =
        -wEnv.pitchLimit) :=
  orbit_pitch_clamp wEnv ⟨⟨0, 0, 0⟩, 8, 0, 0⟩ ⟨0, 10, 0⟩ 1 (by norm_num [wEnv])
    (by norm_num [wEnv])

/-- Witness for C7: a zoom delta of -100 against distance 8 is clamped to
the positive minimum. -/
theorem orbit_distance_clamp_witness :
    0 < (OrbitState.update wEnv ⟨⟨0, 0, 0⟩, 8, 0, 0⟩ ⟨0, 0, -100⟩ 1).1.distance ∧
    ((⟨⟨0, 0, 0⟩, 8, 0, 0⟩ : OrbitState).distance +
        (⟨0, 0, -100⟩ : OrbitInput).zoomDelta ≤ 0 →
      (OrbitState.update wEnv ⟨⟨0, 0, 0⟩, 8, 0, 0⟩ ⟨0, 0, -100⟩ 1).1.distance =
        wEnv.minDistance) :=
  orbit_distance_clamp wEnv ⟨⟨0, 0, 0⟩, 8, 0, 0⟩ ⟨0, 0, -100⟩ 1 (by norm_num [wEnv])

/-- Witness for C8: one update with a yaw delta of 10 lands in `[0, tau)`. -/
theorem orbit_yaw_wrap_witness :
    0 ≤ (OrbitState.updateSeq wEnv ⟨⟨0, 0, 0⟩, 8, 0, 0⟩ [(⟨10, 0, 0⟩, 1)]).yaw ∧
    (OrbitState.updateSeq wEnv ⟨⟨0, 0, 0⟩, 8, 0, 0⟩ [(⟨10, 0, 0⟩, 1)]).yaw <
      wEnv.tau :=
  orbit_yaw_wrap wEnv (by norm_num [wEnv]) ⟨⟨0, 0, 0⟩, 8, 0, 0⟩ [(⟨10, 0, 0⟩, 1)]
    (by simp)

/-- Witness for C9 at a concrete store and environment. -/
theorem orbit_zero_input_witness :
    ((OrbitState.update wEnv ⟨⟨0, 0, 0⟩, 8, 0, 0⟩ ⟨0, 0, 0⟩ 1).1 =
      ⟨⟨0, 0, 0⟩, 8, 0, 0⟩) ∧
    ((OrbitState.update wEnv ⟨⟨0, 0, 0⟩, 8, 0, 0⟩ ⟨0, 0, 0⟩ 1).2.translation =
      ⟨8, 0, 0⟩) ∧
    (∃ cf, 0 < cf ∧
      Quat.rotateVec
          ((OrbitState.update wEnv ⟨⟨0, 0, 0⟩, 8, 0, 0⟩ ⟨0, 0, 0⟩ 1).2.rotation)
          forwardVec =
        Vec3.smul cf (Vec3.sub ⟨0, 0, 0⟩ ⟨8, 0, 0⟩)) ∧
    ((orbitCameraUpdateStore wEnv wStoreClean ⟨1, 0⟩ ⟨⟨0, 0, 0⟩, 8, 0, 0⟩
        ⟨0, 0, 0⟩ 1).1.find ⟨1, 0⟩ =
      some ⟨(OrbitState.update wEnv ⟨⟨0, 0, 0⟩, 8, 0, 0⟩ ⟨0, 0, 0⟩ 1).2,
        wEntC.parent, wEntC.world⟩) ∧
    ((⟨1, 0⟩ : Entity) ∈ (orbitCameraUpdateStore wEnv wStoreClean ⟨1, 0⟩
        ⟨⟨0, 0, 0⟩, 8, 0, 0⟩ ⟨0, 0, 0⟩ 1).1.dirty) :=
  orbit_zero_input wEnv wStoreClean ⟨1, 0⟩ wEntC 1 (by decide) rfl rfl
    (by norm_num [wEnv]) (by norm_num [wEnv])
    ⟨1 / 4, by norm_num,
      by norm_num [wEnv, Quat.rotateVec, Quat.mul, Quat.conj, forwardVec,
        worldUp, Vec3.smul, Vec3.sub]⟩

/-! ### The demo (src/demos/hello/src/main.rs) -/

/-- The demo's state (`HelloNightshade` in `main.rs`): handles to the three
meshes and the accumulated time. -/
structure HelloNightshade where
  cube : Option Entity
  sphere : Option Entity
  torus : Option Entity
  time : ℚ
deriving DecidableEq

/-- The parts of the engine `World` that the demo's `run_systems` touches:
the transform store, the active orbit camera with its state, and the
frame's delta time. -/
structure WorldModel where
  store : TransformStore
  orbit : Option (Entity × OrbitState)
  deltaTime : ℚ

/-- `nalgebra_glm::quat_angle_axis`: the rotation quaternion of the given
angle about the given axis, `⟨cos(a/2), sin(a/2)·axis⟩`. -/
def quatAngleAxis (env : OrbitEnv) (angle : ℚ) (axis : Vec3) : Quat :=
  ⟨env.cosA (angle / 2), env.sinA (angle / 2) * axis.x,
   env.sinA (angle / 2) * axis.y, env.sinA (angle / 2) * axis.z⟩

/-- The x unit axis (`Vec3::x()`). -/
def xAxis : Vec3 := ⟨1, 0, 0⟩

/-- The y unit axis (`Vec3::y()`). -/
def yAxis : Vec3 := ⟨0, 1, 0⟩

/-- The z unit axis (`Vec3::z()`). -/
def zAxis : Vec3 := ⟨0, 0, 1⟩

/-- `pan_orbit_camera_system`: update the active orbit camera from the
frame's pointer/scroll input, writing its transform and marking it dirty
(the controller itself is modelled from the spec §4.4; the input is the
system's external input source). -/
def panOrbitCameraSystem (env : OrbitEnv) (inp : OrbitInput) (w : WorldModel) :
    WorldModel :=
  match w.orbit with
  | none => w
  | some (e, st) =>
    let r := orbitCameraUpdateStore env w.store e st inp w.deltaTime
    { w with store := r.1, orbit := some (e, r.2) }

/-- One demo animation write: when the handle is present, edit the local
transform through `get_mut`; `mark_dirty` is called in either case, exactly
as in `run_systems` (it no-ops when the entity is unknown). -/
def meshStep (oe : Option Entity) (f : LocalTransform → LocalTransform)
    (s : TransformStore) : TransformStore :=
  match oe with
  | none => s
  | some e => (s.modifyLocal e f).markDirty e

/-- The cube's write (main.rs lines 108-115): rotation from two angle-axis
quaternions at speeds 0.8 and 0.5, and a bobbing y translation
`sin(time * 1.5) * 0.5`. -/
def cubeMut (env : OrbitEnv) (time : ℚ) : LocalTransform → LocalTransform :=
  fun lt =>
    { lt with
      rotation := Quat.mul (quatAngleAxis env (time * (4 / 5)) yAxis)
        (quatAngleAxis env (time * (1 / 2)) xAxis),
      translation := { lt.translation with
        y := env.sinA (time * (3 / 2)) * (1 / 2) } }

/-- The sphere's write (main.rs lines 117-124): y rotation at speed 0.3 and
a pulsing uniform scale `1.2 * (1 + sin(time * 2) * 0.1)`. -/
def sphereMut (env : OrbitEnv) (time : ℚ) : LocalTransform → LocalTransform :=
  fun lt =>
    { lt with
      rotation := quatAngleAxis env (time * (3 / 10)) yAxis,
      scale :=
        ⟨6 / 5 * (1 + env.sinA (time * 2) * (1 / 10)),
         6 / 5 * (1 + env.sinA (time * 2) * (1 / 10)),
         6 / 5 * (1 + env.sinA (time * 2) * (1 / 10))⟩ }

/-- The torus's write (main.rs lines 126-133): rotation from two angle-axis
quaternions at speeds 1.2 and 0.7, and a bobbing y translation
`sin(time * 1.2 + 2) * 0.5`. -/
def torusMut (env : OrbitEnv) (time : ℚ) : LocalTransform → LocalTransform :=
  fun lt =>
    { lt with
      rotation := Quat.mul (quatAngleAxis env (time * (6 / 5)) zAxis)
        (quatAngleAxis env (time * (7 / 10)) xAxis),
      translation := { lt.translation with
        y := env.sinA (time * (6 / 5) + 2) * (1 / 2) } }

/-- `HelloNightshade::run_systems` (main.rs lines 102-134): run the camera
system, advance the accumulated time by the frame's delta time, then write
the cube, sphere and torus animations in order, marking each dirty. -/
def HelloNightshade.runSystems (env : OrbitEnv) (inp : OrbitInput)
    (ds : HelloNightshade) (w : WorldModel) : HelloNightshade × WorldModel :=
  let w0 := panOrbitCameraSystem env inp w
  let time := ds.time + w0.deltaTime
  let s := meshStep ds.torus (torusMut env time)
    (meshStep ds.sphere (sphereMut env time)
      (meshStep ds.cube (cubeMut env time) w0.store))
  ({ ds with time := time }, { w0 with store := s })

theorem markDirty_dirty_eq (s : TransformStore) (e : Entity) :
    (s.markDirty e).dirty =
      if (s.find e).isSome = true ∧ e ∉ s.dirty then e :: s.dirty else s.dirty := by
  unfold TransformStore.markDirty
  split_ifs <;> rfl

theorem meshStep_agree {P : Entity → Prop} {s₁ s₂ : TransformStore}
    (hdirty : s₁.dirty = s₂.dirty)
    (hfind : ∀ m, P m → s₁.find m = s₂.find m)
    {oe : Option Entity} (hne : ∀ e, oe = some e → P e)
    (f : LocalTransform → LocalTransform) :
    (meshStep oe f s₁).dirty = (meshStep oe f s₂).dirty ∧
    (∀ m, P m → (meshStep oe f s₁).find m = (meshStep oe f s₂).find m) := by
  cases oe with
  | none => exact ⟨hdirty, hfind⟩
  | some e =>
    have hfe : s₁.find e = s₂.find e := hfind e (hne e rfl)
    constructor
    · show ((s₁.modifyLocal e f).markDirty e).dirty =
        ((s₂.modifyLocal e f).markDirty e).dirty
      rw [markDirty_dirty_eq, markDirty_dirty_eq, modifyLocal_dirty,
        modifyLocal_dirty, find_modifyLocal, find_modifyLocal, hfe, hdirty]
    · intro m hm
      show ((s₁.modifyLocal e f).markDirty e).find m =
        ((s₂.modifyLocal e f).markDirty e).find m
      rw [find_markDirty, find_markDirty, find_modifyLocal, find_modifyLocal,
        hfind m hm]

theorem panOrbit_deltaTime (env : OrbitEnv) (inp : OrbitInput) (w : WorldModel) :
    (panOrbitCameraSystem env inp w).deltaTime = w.deltaTime := by
  cases horb : w.orbit with
  | none => simp [panOrbitCameraSystem, horb]
  | some pr => simp [panOrbitCameraSystem, horb]

theorem panOrbit_agree (env : OrbitEnv) (inp₁ inp₂ : OrbitInput) (w : WorldModel) :
    (panOrbitCameraSystem env inp₁ w).store.dirty =
      (panOrbitCameraSystem env inp₂ w).store.dirty ∧
    ∀ m, (∀ ce ost, w.orbit = some (ce, ost) → m ≠ ce) →
      (panOrbitCameraSystem env inp₁ w).store.find m =
        (panOrbitCameraSystem env inp₂ w).store.find m := by
  cases horb : w.orbit with
  | none => simp [panOrbitCameraSystem, horb]
  | some pr =>
    obtain ⟨ce, ost⟩ := pr
    simp only [panOrbitCameraSystem, horb]
    constructor
    · show ((w.store.setLocal ce _).markDirty ce).dirty =
        ((w.store.setLocal ce _).markDirty ce).dirty
      unfold TransformStore.setLocal
      rw [markDirty_dirty_eq, markDirty_dirty_eq, modifyLocal_dirty,
        modifyLocal_dirty, find_modifyLocal, find_modifyLocal]
      cases w.store.find ce <;> simp
    · intro m hm
      have hmce : m ≠ ce := hm ce ost rfl
      show ((w.store.setLocal ce _).markDirty ce).find m =
        ((w.store.setLocal ce _).markDirty ce).find m
      unfold TransformStore.setLocal
      rw [find_markDirty, find_markDirty,
        find_modifyLocal_ne _ _ _ hmce, find_modifyLocal_ne _ _ _ hmce]

/-- C10: the demo's frame update is deterministic in the accumulated time,
delta time and transforms: two runs of `run_systems` from the same demo
state and world, with arbitrary (possibly different) camera input, produce
the same demo state, mark the same entities dirty, and write identical
transform records (rotation, translation, scale) for the cube, the sphere
and the torus — the camera input is the only other input source, and it
only touches the camera entity. -/
theorem run_systems_deterministic (env : OrbitEnv) (ds : HelloNightshade)
    (w : WorldModel) (inp₁ inp₂ : OrbitInput)
    (hcam : ∀ ce ost, w.orbit = some (ce, ost) →
      ds.cube ≠ some ce ∧ ds.sphere ≠ some ce ∧ ds.torus ≠ some ce) :
    ((HelloNightshade.runSystems env inp₁ ds w).1 =
      (HelloNightshade.runSystems env inp₂ ds w).1) ∧
    ((HelloNightshade.runSystems env inp₁ ds w).2.store.dirty =
      (HelloNightshade.runSystems env inp₂ ds w).2.store.dirty) ∧
    (∀ m : Entity, (ds.cube = some m ∨ ds.sphere = some m ∨ ds.torus = some m) →
      (HelloNightshade.runSystems env inp₁ ds w).2.store.find m =
        (HelloNightshade.runSystems env inp₂ ds w).2.store.find m) := by
  have hfst : ∀ inp, (HelloNightshade.runSystems env inp ds w).1 =
      { ds with time := ds.time + w.deltaTime } := by
    intro inp
    show { ds with time := ds.time + (panOrbitCameraSystem env inp w).deltaTime } = _
    rw [panOrbit_deltaTime]
  have hsnd : ∀ inp, (HelloNightshade.runSystems env inp ds w).2.store =
      meshStep ds.torus (torusMut env (ds.time + w.deltaTime))
        (meshStep ds.sphere (sphereMut env (ds.time + w.deltaTime))
          (meshStep ds.cube (cubeMut env (ds.time + w.deltaTime))
            (panOrbitCameraSystem env inp w).store)) := by
    intro inp
    show meshStep ds.torus
        (torusMut env (ds.time + (panOrbitCameraSystem env inp w).deltaTime)) _ = _
    rw [panOrbit_deltaTime]
  have hPcube : ∀ e, ds.cube = some e →
      (∀ ce ost, w.orbit = some (ce, ost) → e ≠ ce) := by
    intro e he ce ost ho heq
    exact (hcam ce ost ho).1 (by rw [he, heq])
  have hPsphere : ∀ e, ds.sphere = some e →
      (∀ ce ost, w.orbit = some (ce, ost) → e ≠ ce) := by
    intro e he ce ost ho heq
    exact (hcam ce ost ho).2.1 (by rw [he, heq])
  have hPtorus : ∀ e, ds.torus = some e →
      (∀ ce ost, w.orbit = some (ce, ost) → e ≠ ce) := by
    intro e he ce ost ho heq
    exact (hcam ce ost ho).2.2 (by rw [he, heq])
  have A0 := panOrbit_agree env inp₁ inp₂ w
  have A1 := meshStep_agree A0.1 A0.2 hPcube
    (cubeMut env (ds.time + w.deltaTime))
  have A2 := meshStep_agree A1.1 A1.2 hPsphere
    (sphereMut env (ds.time + w.deltaTime))
  have A3 := meshStep_agree A2.1 A2.2 hPtorus
    (torusMut env (ds.time + w.deltaTime))
  refine ⟨?_, ?_, ?_⟩
  · rw [hfst, hfst]
  · rw [hsnd, hsnd]
    exact A3.1
  · intro m hmesh
    have hPm : ∀ ce ost, w.orbit = some (ce, ost) → m ≠ ce := by
      rcases hmesh with hm | hm | hm
      · exact hPcube m hm
      · exact hPsphere m hm
      · exact hPtorus m hm
    rw [hsnd, hsnd]
    exact A3.2 m hPm

/-- Concrete demo state: three mesh handles and accumulated time 0. -/
def wDemo : HelloNightshade := ⟨some ⟨2, 0⟩, some ⟨3, 0⟩, some ⟨4, 0⟩, 0⟩

/-- Concrete world: the clean parent/child store, an orbit camera on entity
⟨9,0⟩, and delta time 1. -/
def wWorld : WorldModel := ⟨wStoreClean, some (⟨9, 0⟩, ⟨⟨0, 0, 0⟩, 8, 0, 0⟩), 1⟩

/-- Witness for C10: two runs with different camera inputs agree on the demo
state, the dirty set, and the three meshes' transform records. -/
theorem run_systems_deterministic_witness :
    ((HelloNightshade.runSystems wEnv ⟨1, 2, 3⟩ wDemo wWorld).1 =
      (HelloNightshade.runSystems wEnv ⟨4, 5, 6⟩ wDemo wWorld).1) ∧
    ((HelloNightshade.runSystems wEnv ⟨1, 2, 3⟩ wDemo wWorld).2.store.dirty =
      (HelloNightshade.runSystems wEnv ⟨4, 5, 6⟩ wDemo wWorld).2.store.dirty) ∧
    (∀ m : Entity,
      (wDemo.cube = some m ∨ wDemo.sphere = some m ∨ wDemo.torus = some m) →
      (HelloNightshade.runSystems wEnv ⟨1, 2, 3⟩ wDemo wWorld).2.store.find m =
        (HelloNightshade.runSystems wEnv ⟨4, 5, 6⟩ wDemo wWorld).2.store.find m) :=
  run_systems_deterministic wEnv wDemo wWorld ⟨1, 2, 3⟩ ⟨4, 5, 6⟩
    (by intro ce ost h; cases h; exact ⟨by decide, by decide, by decide⟩)

end Nightshade
